import Mathlib

set_option maxHeartbeats 1000000
set_option maxRecDepth 4000

/-!
Verification development for the silverlining book parser
(src/utils/bookParser.ts together with the TextSegment interface of
src/types.ts).  The parser normalizes plain-text, FB2 and EPUB books into a
flat list of styled text segments.  Pure string processing is embedded
directly; the external DOM parser and zip library are modelled by handing the
parsers the already-extracted tree / archive data they would obtain from
those libraries.
-/

/-- The TextSegment interface from src/types.ts.  Every field except `text`
is optional in TypeScript; an `Option Bool` value of `none` models the field
being absent on the emitted object. -/
structure TextSegment where
  text : String
  bold : Option Bool := none
  italic : Option Bool := none
  underline : Option Bool := none
  isHeading : Option Bool := none
  isParagraphBreak : Option Bool := none
deriving DecidableEq

/-- The BookFormat union type from src/types.ts. -/
inductive BookFormat where
  | txt
  | fb2
  | epub
deriving DecidableEq

/-- The non-breaking space character U+00A0 (the NBSP constant). -/
def nbspChar : Char := Char.ofNat 160

/-- SENTENCE_BREAK = NBSP.repeat(10), as a character list. -/
def sentenceBreakChars : List Char := List.replicate 10 nbspChar

/-- PARAGRAPH_BREAK = NBSP.repeat(25), as a character list. -/
def paragraphBreakChars : List Char := List.replicate 25 nbspChar

/-- HEADING_GAP = NBSP.repeat(30), as a character list. -/
def headingGapChars : List Char := List.replicate 30 nbspChar

/-- The SENTENCE_BREAK marker string. -/
def SENTENCE_BREAK : String := String.mk sentenceBreakChars

/-- The PARAGRAPH_BREAK marker string. -/
def PARAGRAPH_BREAK : String := String.mk paragraphBreakChars

/-- The HEADING_GAP marker string. -/
def HEADING_GAP : String := String.mk headingGapChars

/-- The paragraph-break segment pushed by all three parsers:
`{ text: PARAGRAPH_BREAK, isParagraphBreak: true }`. -/
def paraBreakSeg : TextSegment :=
  { text := PARAGRAPH_BREAK, isParagraphBreak := some true }

/-- The heading-gap segment pushed around heading content:
`{ text: HEADING_GAP, isParagraphBreak: true }`. -/
def headingGapSeg : TextSegment :=
  { text := HEADING_GAP, isParagraphBreak := some true }

/-- Characters matched by JavaScript's regex class \s (which is also the
character set removed by String.prototype.trim): ASCII whitespace,
line/paragraph separators, NBSP and the other Unicode space separators. -/
def isJsSpace (c : Char) : Bool :=
  c == ' ' || c == '\t' || c == '\n' || c.toNat == 11 || c.toNat == 12 ||
  c == '\r' || c.toNat == 160 || c.toNat == 0x1680 ||
  decide (0x2000 ≤ c.toNat ∧ c.toNat ≤ 0x200A) ||
  c.toNat == 0x2028 || c.toNat == 0x2029 || c.toNat == 0x202F ||
  c.toNat == 0x205F || c.toNat == 0x3000 || c.toNat == 0xFEFF

/-- JavaScript String.prototype.trim on a character list: drop leading and
trailing \s characters. -/
def jsTrim (l : List Char) : List Char :=
  ((l.dropWhile isJsSpace).reverse.dropWhile isJsSpace).reverse

/-- The terminal punctuation class [.!?] of addSentenceBreaks. -/
def isTerminalPunct (c : Char) : Bool :=
  c == '.' || c == '!' || c == '?'

/-- Whether a character list starts with a \s character. -/
def headIsSpace : List Char → Bool
  | [] => false
  | c :: _ => isJsSpace c

/-- Worker for addSentenceBreaks.  The Bool argument is true while the
whitespace run of a regex match `([.!?])(\s+)` is being consumed (that run
has been replaced by the marker, so its characters are dropped); global
regex replacement then resumes ordinary scanning at the first non-\s
character. -/
def addSBGo : Bool → List Char → List Char
  | _, [] => []
  | swallowing, c :: rest =>
    if swallowing && isJsSpace c then
      addSBGo true rest
    else if isTerminalPunct c && headIsSpace rest then
      c :: (sentenceBreakChars ++ addSBGo true rest)
    else
      c :: addSBGo false rest

/-- addSentenceBreaks: `text.replace(/([.!?])(\s+)/g, '$1' + SENTENCE_BREAK)`
on a character list. -/
def addSB (l : List Char) : List Char :=
  addSBGo false l

/-- The split `text.split(/\r?\n/)` on a character list: a lone LF or a CRLF pair
separates lines; a lone CR does not. -/
def splitLines : List Char → List (List Char)
  | [] => [[]]
  | '\r' :: '\n' :: rest => [] :: splitLines rest
  | '\n' :: rest => [] :: splitLines rest
  | c :: rest =>
    match splitLines rest with
    | [] => [[c]]
    | l :: ls => (c :: l) :: ls

/-- The segment parseTxt pushes for a non-blank line `l`:
`{ text: addSentenceBreaks(line) + SENTENCE_BREAK }` where line = l.trim(). -/
def txtLineSeg (l : List Char) : TextSegment :=
  { text := String.mk (addSB (jsTrim l) ++ sentenceBreakChars) }

/-- The parseTxt loop's lookahead `i < lines.length - 1 && lines[i+1].trim() !== ''`:
there is a following line and it is non-blank after trimming. -/
def nextLineNonBlank : List (List Char) → Bool
  | [] => false
  | next :: _ => !(jsTrim next).isEmpty

/-- The body of parseTxt's for-loop over the split lines. -/
def parseTxtGo : List (List Char) → List TextSegment
  | [] => []
  | l :: rest =>
    if (jsTrim l).isEmpty then
      (if nextLineNonBlank rest then [paraBreakSeg] else []) ++ parseTxtGo rest
    else
      txtLineSeg l :: parseTxtGo rest

/-- parseTxt from src/utils/bookParser.ts, applied to the decoded file text. -/
def parseTxt (input : String) : List TextSegment :=
  parseTxtGo (splitLines input.data)

/-!
The DOM tree handed to the FB2 and EPUB walkers.  The walkers classify DOM
nodes by nodeType: 3 (text node, carrying nodeValue), 1 (element node,
carrying tagName and childNodes) and anything else (skipped).  That tagged
variant is modelled as a mutual pair of inductives so the walkers can
recurse structurally over a node and over a child list.
-/

mutual
inductive XNode : Type where
  | text (value : String) : XNode
  | elem (tag : String) (children : XNodes) : XNode
  | other : XNode
inductive XNodes : Type where
  | nil : XNodes
  | cons (hd : XNode) (tl : XNodes) : XNodes
end

/-- ASCII lower-casing of a string, modelling `tagName.toLowerCase()` on the
ASCII tag names the parser compares against. -/
def toLowerStr (s : String) : String :=
  String.mk (s.data.map Char.toLower)

/-- The expression `child.tagName?.toLowerCase()` as used inside the child loops (defined on
element nodes; irrelevant elsewhere). -/
def tagNameLower : XNode → String
  | XNode.elem tag _ => toLowerStr tag
  | _ => ("")

/-- The bold tag predicate shared by both walkers:
`tagName === 'strong' || tagName === 'b'`. -/
def isBoldTag (t : String) : Bool :=
  t == ("strong") || t == ("b")

/-- The FB2 italic tag predicate:
`tagName === 'emphasis' || tagName === 'i' || tagName === 'em'`. -/
def isFb2ItalicTag (t : String) : Bool :=
  t == ("emphasis") || t == ("i") || t == ("em")

/-- The EPUB italic tag predicate: `tagName === 'em' || tagName === 'i'`. -/
def isEpubItalicTag (t : String) : Bool :=
  t == ("em") || t == ("i")

/-- The FB2 heading predicate:
`tagName === 'title' || tagName === 'subtitle' || tagName?.startsWith('h')`
(a one-character prefix test is exactly a first-character test). -/
def isFb2HeadingTag (t : String) : Bool :=
  t == ("title") || t == ("subtitle") || t.data.head? == some 'h'

/-- The EPUB heading predicate: `tagName?.match(/^h[1-6]$/)`. -/
def isEpubHeadingTag (t : String) : Bool :=
  match t.data with
  | ['h', c] => decide ('1' ≤ c ∧ c ≤ '6')
  | _ => false

/-- The text-node segment both walkers push for a trimmed non-empty
nodeValue `t`:
`{ text: addSentenceBreaks(text) + ' ', bold: isHeading || inheritBold,
   italic: inheritItalic, underline: inheritUnderline, isHeading }`. -/
def mkTextSeg (t : List Char) (isHeading inheritBold inheritItalic inheritUnderline : Bool) :
    TextSegment :=
  { text := String.mk (addSB t ++ [' ']),
    bold := some (isHeading || inheritBold),
    italic := some inheritItalic,
    underline := some inheritUnderline,
    isHeading := some isHeading }

mutual
/-- processFb2NodeWithContext from src/utils/bookParser.ts. -/
def processFb2NodeWithContext :
    XNode → Bool → Bool → Bool → Bool → List TextSegment
  | XNode.text value, isHeading, inheritBold, inheritItalic, inheritUnderline =>
    if (jsTrim value.data).isEmpty then []
    else [mkTextSeg (jsTrim value.data) isHeading inheritBold inheritItalic inheritUnderline]
  | XNode.elem tag ch, isHeading, inheritBold, inheritItalic, inheritUnderline =>
    if isFb2HeadingTag (toLowerStr tag) then
      headingGapSeg ::
        (processFb2Children ch true true inheritItalic inheritUnderline ++
          [headingGapSeg, paraBreakSeg])
    else if toLowerStr tag == ("empty-line") then
      [paraBreakSeg]
    else if toLowerStr tag == ("p") then
      processFb2Children ch isHeading inheritBold inheritItalic inheritUnderline ++
        [paraBreakSeg]
    else
      processFb2Children ch isHeading
        (inheritBold || isBoldTag (toLowerStr tag))
        (inheritItalic || isFb2ItalicTag (toLowerStr tag))
        (inheritUnderline || toLowerStr tag == ("u"))
  | XNode.other, _, _, _, _ => []

/-- processFb2Children from src/utils/bookParser.ts (the loop over
node.childNodes; element children get the formatting context updated before
the recursive processFb2NodeWithContext call). -/
def processFb2Children :
    XNodes → Bool → Bool → Bool → Bool → List TextSegment
  | XNodes.nil, _, _, _, _ => []
  | XNodes.cons c tl, isHeading, inheritBold, inheritItalic, inheritUnderline =>
    (match c with
     | XNode.text value =>
       if (jsTrim value.data).isEmpty then []
       else [mkTextSeg (jsTrim value.data) isHeading inheritBold inheritItalic inheritUnderline]
     | XNode.elem _ _ =>
       processFb2NodeWithContext c isHeading
         (inheritBold || isBoldTag (tagNameLower c))
         (inheritItalic || isFb2ItalicTag (tagNameLower c))
         (inheritUnderline || tagNameLower c == ("u"))
     | XNode.other => []) ++
      processFb2Children tl isHeading inheritBold inheritItalic inheritUnderline
end

mutual
/-- processEpubNodeWithContext from src/utils/bookParser.ts. -/
def processEpubNodeWithContext :
    XNode → Bool → Bool → Bool → Bool → List TextSegment
  | XNode.text value, isHeading, inheritBold, inheritItalic, inheritUnderline =>
    if (jsTrim value.data).isEmpty then []
    else [mkTextSeg (jsTrim value.data) isHeading inheritBold inheritItalic inheritUnderline]
  | XNode.elem tag ch, isHeading, inheritBold, inheritItalic, inheritUnderline =>
    if isEpubHeadingTag (toLowerStr tag) then
      headingGapSeg ::
        (processEpubChildren ch true true inheritItalic inheritUnderline ++
          [headingGapSeg, paraBreakSeg])
    else if toLowerStr tag == ("p") then
      processEpubChildren ch isHeading inheritBold inheritItalic inheritUnderline ++
        [paraBreakSeg]
    else
      processEpubChildren ch isHeading
        (inheritBold || isBoldTag (toLowerStr tag))
        (inheritItalic || isEpubItalicTag (toLowerStr tag))
        (inheritUnderline || toLowerStr tag == ("u"))
  | XNode.other, _, _, _, _ => []

/-- processEpubChildren from src/utils/bookParser.ts. -/
def processEpubChildren :
    XNodes → Bool → Bool → Bool → Bool → List TextSegment
  | XNodes.nil, _, _, _, _ => []
  | XNodes.cons c tl, isHeading, inheritBold, inheritItalic, inheritUnderline =>
    (match c with
     | XNode.text value =>
       if (jsTrim value.data).isEmpty then []
       else [mkTextSeg (jsTrim value.data) isHeading inheritBold inheritItalic inheritUnderline]
     | XNode.elem _ _ =>
       processEpubNodeWithContext c isHeading
         (inheritBold || isBoldTag (tagNameLower c))
         (inheritItalic || isEpubItalicTag (tagNameLower c))
         (inheritUnderline || tagNameLower c == ("u"))
     | XNode.other => []) ++
      processEpubChildren tl isHeading inheritBold inheritItalic inheritUnderline
end

/-- processFb2Node: the root call with all flags false. -/
def processFb2Node (n : XNode) : List TextSegment :=
  processFb2NodeWithContext n false false false false

/-- processEpubNode: the root call with all flags false. -/
def processEpubNode (n : XNode) : List TextSegment :=
  processEpubNodeWithContext n false false false false

mutual
/-- First element with the given (case-sensitive) tag name, in document
order, starting at a node: `doc.getElementsByTagName(tag)[0]`. -/
def findByTag (tag : String) : XNode → Option XNode
  | XNode.elem t ch =>
    if t == tag then some (XNode.elem t ch) else findByTagList tag ch
  | _ => none

/-- findByTag over a child list, left to right. -/
def findByTagList (tag : String) : XNodes → Option XNode
  | XNodes.nil => none
  | XNodes.cons c tl =>
    match findByTag tag c with
    | some r => some r
    | none => findByTagList tag tl
end

mutual
/-- Whether any element with the given tag name occurs in the tree. -/
def containsTag (tag : String) : XNode → Bool
  | XNode.elem t ch => t == tag || containsTagList tag ch
  | _ => false

/-- containsTag over a child list. -/
def containsTagList (tag : String) : XNodes → Bool
  | XNodes.nil => false
  | XNodes.cons c tl => containsTag tag c || containsTagList tag tl
end

/-- parseFb2 from src/utils/bookParser.ts, applied to the XML document tree
the external DOMParser produced from the file text: look up the first
`body` element; with no body, return the empty segment list; otherwise walk
the body with all flags false. -/
def parseFb2 (doc : XNode) : List TextSegment :=
  match findByTag ("body") doc with
  | none => []
  | some body => processFb2NodeWithContext body false false false false

/-!
The EPUB archive resolver.  The zip container and the three XML/HTML parses
are external library work; parseEpub is embedded over the data it extracts
from them: whether META-INF/container.xml exists, the first rootfile's
full-path attribute, whether the OPF file exists, the manifest items' id and
href attributes, the spine itemrefs' idref attributes, and each content
file's parsed body element.
-/

/-- A content file as seen by the spine loop: `zip.file(href)?.async('string')`
yielding nothing usable (file absent or unreadable or empty, all of which
`continue`), or a document with no `body` element (nothing is emitted), or a
document with a body. -/
inductive ContentFile where
  | unreadable : ContentFile
  | noBody : ContentFile
  | withBody (body : XNode) : ContentFile

/-- The archive data parseEpub consumes. -/
structure EpubArchive where
  hasContainerXml : Bool
  rootfileFullPath : Option String
  hasOpfFile : Bool
  manifestItems : List (Option String × Option String)
  spineItemrefs : List (Option String)
  contentFiles : List (String × ContentFile)

/-- The base path `opfPath.substring(0, opfPath.lastIndexOf('/') + 1)`: everything up to
and including the last slash (empty when there is no slash). -/
def basePathChars (l : List Char) : List Char :=
  (l.reverse.dropWhile (fun c => !(c == '/'))).reverse

/-- The manifest loop: keep every item with truthy (present and non-empty)
id and href attributes, mapping id to basePath + href; Map.set overwrites,
so later entries shadow earlier ones. -/
def buildManifest (items : List (Option String × Option String)) (basePath : String) :
    List (String × String) :=
  items.foldl
    (fun m it =>
      match it with
      | (some id, some href) =>
        if id.data.isEmpty || href.data.isEmpty then m
        else m ++ [(id, basePath ++ href)]
      | _ => m)
    []

/-- Map.get on the built manifest: the most recently set binding wins. -/
def manifestGet (m : List (String × String)) (k : String) : Option String :=
  (m.reverse.find? (fun e => e.1 == k)).map (fun e => e.2)

/-- Looking a path up among the archive's content files; a path that is not
listed behaves as unreadable. -/
def contentAt (files : List (String × ContentFile)) (p : String) : ContentFile :=
  ((files.find? (fun e => e.1 == p)).map (fun e => e.2)).getD ContentFile.unreadable

/-- The spine loop of parseEpub: an itemref with a falsy idref, an idref
with no manifest match, or an unresolvable content file is skipped with
`continue`; a body-less document contributes nothing; a body is walked with
all flags false and its segments appended in spine order. -/
def processSpineItems :
    List (Option String) → List (String × String) → List (String × ContentFile) →
    List TextSegment
  | [], _, _ => []
  | none :: rest, m, c => processSpineItems rest m c
  | some idref :: rest, m, c =>
    if idref.data.isEmpty then processSpineItems rest m c
    else
      match manifestGet m idref with
      | none => processSpineItems rest m c
      | some href =>
        match contentAt c href with
        | ContentFile.unreadable => processSpineItems rest m c
        | ContentFile.noBody => processSpineItems rest m c
        | ContentFile.withBody b =>
          processEpubNodeWithContext b false false false false ++
            processSpineItems rest m c

/-- parseEpub from src/utils/bookParser.ts.  The three "missing X" checks
throw (modelled as Except.error); a missing rootfile full-path attribute and
an empty one are both falsy in `if (!opfPath)`. -/
def parseEpub (e : EpubArchive) : Except String (List TextSegment) :=
  if !e.hasContainerXml then
    Except.error ("Invalid EPUB: missing container.xml")
  else
    match e.rootfileFullPath with
    | none => Except.error ("Invalid EPUB: missing OPF path")
    | some opfPath =>
      if opfPath.data.isEmpty then Except.error ("Invalid EPUB: missing OPF path")
      else if !e.hasOpfFile then Except.error ("Invalid EPUB: missing OPF file")
      else
        Except.ok
          (processSpineItems e.spineItemrefs
            (buildManifest e.manifestItems (String.mk (basePathChars opfPath.data)))
            e.contentFiles)

/-- The split `filename.split('.')` on a character list (JavaScript split with a
one-character separator: no match yields the whole string as one piece). -/
def splitOnDot : List Char → List (List Char)
  | [] => [[]]
  | '.' :: rest => [] :: splitOnDot rest
  | c :: rest =>
    match splitOnDot rest with
    | [] => [[c]]
    | l :: ls => (c :: l) :: ls

/-- getFileFormat from src/utils/bookParser.ts:
`filename.split('.').pop()?.toLowerCase()` matched against the three known
extensions, otherwise `Unknown file format` is thrown. -/
def getFileFormat (filename : String) : Except String BookFormat :=
  if toLowerStr (String.mk ((splitOnDot filename.data).getLastD [])) == ("txt") then
    Except.ok BookFormat.txt
  else if toLowerStr (String.mk ((splitOnDot filename.data).getLastD [])) == ("fb2") then
    Except.ok BookFormat.fb2
  else if toLowerStr (String.mk ((splitOnDot filename.data).getLastD [])) == ("epub") then
    Except.ok BookFormat.epub
  else
    Except.error (("Unknown file format: ") ++
      toLowerStr (String.mk ((splitOnDot filename.data).getLastD [])))

/-- A book file as parseBook sees it: its name, its decoded text (for
parseTxt), the XML document tree DOMParser yields from that text (for
parseFb2), and the extracted archive data (for parseEpub). -/
structure MFile where
  name : String
  content : String
  xmlDoc : XNode
  archive : EpubArchive

/-- parseBook from src/utils/bookParser.ts: detect the format from the file
name and dispatch; a getFileFormat failure propagates before any parser
runs. -/
def parseBook (f : MFile) : Except String (List TextSegment) :=
  match getFileFormat f.name with
  | Except.error e => Except.error e
  | Except.ok BookFormat.txt => Except.ok (parseTxt f.content)
  | Except.ok BookFormat.fb2 => Except.ok (parseFb2 f.xmlDoc)
  | Except.ok BookFormat.epub => parseEpub f.archive

/-!
Helper invariants about the walkers, proved by mutual induction.
-/

/-- Monotone inheritance: relative to the context (isHeading, bold, italic,
underline) a segment was emitted under, every segment is either a pure break
segment or carries each inherited flag that was already set, and a heading
context forces both isHeading and bold. -/
def MonoStyle (h b i u : Bool) (s : TextSegment) : Prop :=
  ((h || b) = true → s.isParagraphBreak = some true ∨ s.bold = some true) ∧
  (i = true → s.isParagraphBreak = some true ∨ s.italic = some true) ∧
  (u = true → s.isParagraphBreak = some true ∨ s.underline = some true) ∧
  (h = true → s.isParagraphBreak = some true ∨
    (s.isHeading = some true ∧ s.bold = some true))

theorem monoStyle_of_break (h b i u : Bool) (s : TextSegment)
    (hs : s.isParagraphBreak = some true) : MonoStyle h b i u s :=
  ⟨fun _ => Or.inl hs, fun _ => Or.inl hs, fun _ => Or.inl hs, fun _ => Or.inl hs⟩

theorem monoStyle_mkTextSeg (t : List Char) (h b i u : Bool) :
    MonoStyle h b i u (mkTextSeg t h b i u) := by
  refine ⟨?_, ?_, ?_, ?_⟩ <;> intro hc <;> simp [mkTextSeg, hc]

theorem monoStyle_weaken {h b i u h2 b2 i2 u2 : Bool} {s : TextSegment}
    (m : MonoStyle h2 b2 i2 u2 s) (hh : h = true → h2 = true)
    (hb : (h || b) = true → (h2 || b2) = true)
    (hi : i = true → i2 = true) (hu : u = true → u2 = true) :
    MonoStyle h b i u s :=
  ⟨fun x => m.1 (hb x), fun x => m.2.1 (hi x), fun x => m.2.2.1 (hu x),
   fun x => m.2.2.2 (hh x)⟩

mutual
theorem fb2NodeMono :
    ∀ (n : XNode) (h b i u : Bool) (s : TextSegment),
      s ∈ processFb2NodeWithContext n h b i u → MonoStyle h b i u s
  | XNode.text value, h, b, i, u, s => by
    intro hs
    simp only [processFb2NodeWithContext] at hs
    split at hs
    · simp at hs
    · simp only [List.mem_singleton] at hs
      subst hs
      exact monoStyle_mkTextSeg _ h b i u
  | XNode.elem tag ch, h, b, i, u, s => by
    intro hs
    simp only [processFb2NodeWithContext] at hs
    split at hs
    · simp only [List.mem_cons, List.mem_append, List.mem_singleton,
        List.mem_nil_iff, or_false] at hs
      rcases hs with rfl | hs | rfl | rfl
      · exact monoStyle_of_break h b i u _ rfl
      · exact monoStyle_weaken (fb2ChildrenMono ch true true i u s hs)
          (fun _ => rfl) (fun _ => rfl) (fun x => x) (fun x => x)
      · exact monoStyle_of_break h b i u _ rfl
      · exact monoStyle_of_break h b i u _ rfl
    · split at hs
      · simp only [List.mem_singleton] at hs
        subst hs
        exact monoStyle_of_break h b i u _ rfl
      · split at hs
        · simp only [List.mem_append, List.mem_singleton] at hs
          rcases hs with hs | rfl
          · exact fb2ChildrenMono ch h b i u s hs
          · exact monoStyle_of_break h b i u _ rfl
        · refine monoStyle_weaken (fb2ChildrenMono ch h
            (b || isBoldTag (toLowerStr tag))
            (i || isFb2ItalicTag (toLowerStr tag))
            (u || (toLowerStr tag == ("u"))) s hs)
            (fun x => x) ?_ ?_ ?_
          · intro hx; cases h <;> cases b <;> simp_all
          · intro hx; simp [hx]
          · intro hx; simp [hx]
  | XNode.other, h, b, i, u, s => by
    intro hs
    simp only [processFb2NodeWithContext] at hs
    simp at hs

theorem fb2ChildrenMono :
    ∀ (ns : XNodes) (h b i u : Bool) (s : TextSegment),
      s ∈ processFb2Children ns h b i u → MonoStyle h b i u s
  | XNodes.nil, h, b, i, u, s => by
    intro hs
    simp only [processFb2Children] at hs
    simp at hs
  | XNodes.cons c tl, h, b, i, u, s => by
    intro hs
    cases c with
    | text value =>
      simp only [processFb2Children, List.mem_append] at hs
      rcases hs with hs | hs
      · split at hs
        · simp at hs
        · simp only [List.mem_singleton] at hs
          subst hs
          exact monoStyle_mkTextSeg _ h b i u
      · exact fb2ChildrenMono tl h b i u s hs
    | elem tag2 ch2 =>
      simp only [processFb2Children, List.mem_append] at hs
      rcases hs with hs | hs
      · refine monoStyle_weaken (fb2NodeMono (XNode.elem tag2 ch2) h
          (b || isBoldTag (tagNameLower (XNode.elem tag2 ch2)))
          (i || isFb2ItalicTag (tagNameLower (XNode.elem tag2 ch2)))
          (u || (tagNameLower (XNode.elem tag2 ch2) == ("u"))) s hs)
          (fun x => x) ?_ ?_ ?_
        · intro hx; cases h <;> cases b <;> simp_all
        · intro hx; simp [hx]
        · intro hx; simp [hx]
      · exact fb2ChildrenMono tl h b i u s hs
    | other =>
      simp only [processFb2Children, List.mem_append] at hs
      rcases hs with hs | hs
      · simp at hs
      · exact fb2ChildrenMono tl h b i u s hs
end

mutual
theorem epubNodeMono :
    ∀ (n : XNode) (h b i u : Bool) (s : TextSegment),
      s ∈ processEpubNodeWithContext n h b i u → MonoStyle h b i u s
  | XNode.text value, h, b, i, u, s => by
    intro hs
    simp only [processEpubNodeWithContext] at hs
    split at hs
    · simp at hs
    · simp only [List.mem_singleton] at hs
      subst hs
      exact monoStyle_mkTextSeg _ h b i u
  | XNode.elem tag ch, h, b, i, u, s => by
    intro hs
    simp only [processEpubNodeWithContext] at hs
    split at hs
    · simp only [List.mem_cons, List.mem_append, List.mem_singleton,
        List.mem_nil_iff, or_false] at hs
      rcases hs with rfl | hs | rfl | rfl
      · exact monoStyle_of_break h b i u _ rfl
      · exact monoStyle_weaken (epubChildrenMono ch true true i u s hs)
          (fun _ => rfl) (fun _ => rfl) (fun x => x) (fun x => x)
      · exact monoStyle_of_break h b i u _ rfl
      · exact monoStyle_of_break h b i u _ rfl
    · split at hs
      · simp only [List.mem_append, List.mem_singleton] at hs
        rcases hs with hs | rfl
        · exact epubChildrenMono ch h b i u s hs
        · exact monoStyle_of_break h b i u _ rfl
      · refine monoStyle_weaken (epubChildrenMono ch h
          (b || isBoldTag (toLowerStr tag))
          (i || isEpubItalicTag (toLowerStr tag))
          (u || (toLowerStr tag == ("u"))) s hs)
          (fun x => x) ?_ ?_ ?_
        · intro hx; cases h <;> cases b <;> simp_all
        · intro hx; simp [hx]
        · intro hx; simp [hx]
  | XNode.other, h, b, i, u, s => by
    intro hs
    simp only [processEpubNodeWithContext] at hs
    simp at hs

theorem epubChildrenMono :
    ∀ (ns : XNodes) (h b i u : Bool) (s : TextSegment),
      s ∈ processEpubChildren ns h b i u → MonoStyle h b i u s
  | XNodes.nil, h, b, i, u, s => by
    intro hs
    simp only [processEpubChildren] at hs
    simp at hs
  | XNodes.cons c tl, h, b, i, u, s => by
    intro hs
    cases c with
    | text value =>
      simp only [processEpubChildren, List.mem_append] at hs
      rcases hs with hs | hs
      · split at hs
        · simp at hs
        · simp only [List.mem_singleton] at hs
          subst hs
          exact monoStyle_mkTextSeg _ h b i u
      · exact epubChildrenMono tl h b i u s hs
    | elem tag2 ch2 =>
      simp only [processEpubChildren, List.mem_append] at hs
      rcases hs with hs | hs
      · refine monoStyle_weaken (epubNodeMono (XNode.elem tag2 ch2) h
          (b || isBoldTag (tagNameLower (XNode.elem tag2 ch2)))
          (i || isEpubItalicTag (tagNameLower (XNode.elem tag2 ch2)))
          (u || (tagNameLower (XNode.elem tag2 ch2) == ("u"))) s hs)
          (fun x => x) ?_ ?_ ?_
        · intro hx; cases h <;> cases b <;> simp_all
        · intro hx; simp [hx]
        · intro hx; simp [hx]
      · exact epubChildrenMono tl h b i u s hs
    | other =>
      simp only [processEpubChildren, List.mem_append] at hs
      rcases hs with hs | hs
      · simp at hs
      · exact epubChildrenMono tl h b i u s hs
end

/-- Normal form of walker output: every emitted segment is a heading gap, a
paragraph break, or a text-node segment. -/
def SegForm (s : TextSegment) : Prop :=
  s = headingGapSeg ∨ s = paraBreakSeg ∨
    ∃ t h b i u, s = mkTextSeg t h b i u

mutual
theorem fb2NodeForm :
    ∀ (n : XNode) (h b i u : Bool) (s : TextSegment),
      s ∈ processFb2NodeWithContext n h b i u → SegForm s
  | XNode.text value, h, b, i, u, s => by
    intro hs
    simp only [processFb2NodeWithContext] at hs
    split at hs
    · simp at hs
    · simp only [List.mem_singleton] at hs
      exact Or.inr (Or.inr ⟨_, h, b, i, u, hs⟩)
  | XNode.elem tag ch, h, b, i, u, s => by
    intro hs
    simp only [processFb2NodeWithContext] at hs
    split at hs
    · simp only [List.mem_cons, List.mem_append, List.mem_singleton,
        List.mem_nil_iff, or_false] at hs
      rcases hs with rfl | hs | rfl | rfl
      · exact Or.inl rfl
      · exact fb2ChildrenForm ch true true i u s hs
      · exact Or.inl rfl
      · exact Or.inr (Or.inl rfl)
    · split at hs
      · simp only [List.mem_singleton] at hs
        exact Or.inr (Or.inl hs)
      · split at hs
        · simp only [List.mem_append, List.mem_singleton] at hs
          rcases hs with hs | rfl
          · exact fb2ChildrenForm ch h b i u s hs
          · exact Or.inr (Or.inl rfl)
        · exact fb2ChildrenForm ch h _ _ _ s hs
  | XNode.other, h, b, i, u, s => by
    intro hs
    simp only [processFb2NodeWithContext] at hs
    simp at hs

theorem fb2ChildrenForm :
    ∀ (ns : XNodes) (h b i u : Bool) (s : TextSegment),
      s ∈ processFb2Children ns h b i u → SegForm s
  | XNodes.nil, h, b, i, u, s => by
    intro hs
    simp only [processFb2Children] at hs
    simp at hs
  | XNodes.cons c tl, h, b, i, u, s => by
    intro hs
    cases c with
    | text value =>
      simp only [processFb2Children, List.mem_append] at hs
      rcases hs with hs | hs
      · split at hs
        · simp at hs
        · simp only [List.mem_singleton] at hs
          exact Or.inr (Or.inr ⟨_, h, b, i, u, hs⟩)
      · exact fb2ChildrenForm tl h b i u s hs
    | elem tag2 ch2 =>
      simp only [processFb2Children, List.mem_append] at hs
      rcases hs with hs | hs
      · exact fb2NodeForm (XNode.elem tag2 ch2) h _ _ _ s hs
      · exact fb2ChildrenForm tl h b i u s hs
    | other =>
      simp only [processFb2Children, List.mem_append] at hs
      rcases hs with hs | hs
      · simp at hs
      · exact fb2ChildrenForm tl h b i u s hs
end

mutual
theorem epubNodeForm :
    ∀ (n : XNode) (h b i u : Bool) (s : TextSegment),
      s ∈ processEpubNodeWithContext n h b i u → SegForm s
  | XNode.text value, h, b, i, u, s => by
    intro hs
    simp only [processEpubNodeWithContext] at hs
    split at hs
    · simp at hs
    · simp only [List.mem_singleton] at hs
      exact Or.inr (Or.inr ⟨_, h, b, i, u, hs⟩)
  | XNode.elem tag ch, h, b, i, u, s => by
    intro hs
    simp only [processEpubNodeWithContext] at hs
    split at hs
    · simp only [List.mem_cons, List.mem_append, List.mem_singleton,
        List.mem_nil_iff, or_false] at hs
      rcases hs with rfl | hs | rfl | rfl
      · exact Or.inl rfl
      · exact epubChildrenForm ch true true i u s hs
      · exact Or.inl rfl
      · exact Or.inr (Or.inl rfl)
    · split at hs
      · simp only [List.mem_append, List.mem_singleton] at hs
        rcases hs with hs | rfl
        · exact epubChildrenForm ch h b i u s hs
        · exact Or.inr (Or.inl rfl)
      · exact epubChildrenForm ch h _ _ _ s hs
  | XNode.other, h, b, i, u, s => by
    intro hs
    simp only [processEpubNodeWithContext] at hs
    simp at hs

theorem epubChildrenForm :
    ∀ (ns : XNodes) (h b i u : Bool) (s : TextSegment),
      s ∈ processEpubChildren ns h b i u → SegForm s
  | XNodes.nil, h, b, i, u, s => by
    intro hs
    simp only [processEpubChildren] at hs
    simp at hs
  | XNodes.cons c tl, h, b, i, u, s => by
    intro hs
    cases c with
    | text value =>
      simp only [processEpubChildren, List.mem_append] at hs
      rcases hs with hs | hs
      · split at hs
        · simp at hs
        · simp only [List.mem_singleton] at hs
          exact Or.inr (Or.inr ⟨_, h, b, i, u, hs⟩)
      · exact epubChildrenForm tl h b i u s hs
    | elem tag2 ch2 =>
      simp only [processEpubChildren, List.mem_append] at hs
      rcases hs with hs | hs
      · exact epubNodeForm (XNode.elem tag2 ch2) h _ _ _ s hs
      · exact epubChildrenForm tl h b i u s hs
    | other =>
      simp only [processEpubChildren, List.mem_append] at hs
      rcases hs with hs | hs
      · simp at hs
      · exact epubChildrenForm tl h b i u s hs
end

theorem segForm_text_ne (s : TextSegment) (hf : SegForm s) : s.text ≠ ("") := by
  rcases hf with rfl | rfl | ⟨t, h, b, i, u, rfl⟩
  · intro hcontra
    have hd := congrArg String.data hcontra
    simp [headingGapSeg, HEADING_GAP, headingGapChars] at hd
  · intro hcontra
    have hd := congrArg String.data hcontra
    simp [paraBreakSeg, PARAGRAPH_BREAK, paragraphBreakChars] at hd
  · intro hcontra
    have hd := congrArg String.data hcontra
    simp [mkTextSeg] at hd

theorem segForm_last_space (s : TextSegment) (hf : SegForm s) :
    s.isParagraphBreak = some true ∨ s.text.data.getLast? = some ' ' := by
  rcases hf with rfl | rfl | ⟨t, h, b, i, u, rfl⟩
  · exact Or.inl rfl
  · exact Or.inl rfl
  · exact Or.inr (by simp [mkTextSeg])

theorem txtLineSeg_text_ne (l : List Char) : (txtLineSeg l).text ≠ ("") := by
  intro hcontra
  have hd := congrArg String.data hcontra
  simp [txtLineSeg, sentenceBreakChars] at hd

theorem parseTxtGo_mem :
    ∀ (lines : List (List Char)) (s : TextSegment), s ∈ parseTxtGo lines →
      s = paraBreakSeg ∨ ∃ l, s = txtLineSeg l
  | [], s => by
    intro hs
    simp [parseTxtGo] at hs
  | l :: rest, s => by
    intro hs
    rw [parseTxtGo] at hs
    split at hs
    · rw [List.mem_append] at hs
      rcases hs with hs | hs
      · split at hs
        · simp only [List.mem_singleton] at hs
          exact Or.inl hs
        · simp at hs
      · exact parseTxtGo_mem rest s hs
    · simp only [List.mem_cons] at hs
      rcases hs with rfl | hs
      · exact Or.inr ⟨l, rfl⟩
      · exact parseTxtGo_mem rest s hs

theorem parseTxtGo_blank_run :
    ∀ (blanks rest : List (List Char)),
      (∀ x ∈ blanks, (jsTrim x).isEmpty = true) →
      parseTxtGo (blanks ++ rest) =
        (if !blanks.isEmpty && nextLineNonBlank rest then [paraBreakSeg] else []) ++
          parseTxtGo rest
  | [], rest, _ => by simp
  | [bl], rest, hb => by
    have hbl : (jsTrim bl).isEmpty = true := hb bl (by simp)
    simp [parseTxtGo, hbl]
  | bl :: b2 :: tl2, rest, hb => by
    have hbl : (jsTrim bl).isEmpty = true := hb bl (by simp)
    have hb2 : (jsTrim b2).isEmpty = true := hb b2 (by simp)
    have hrec := parseTxtGo_blank_run (b2 :: tl2) rest
      (fun x hx => hb x (List.mem_cons_of_mem bl hx))
    simp only [List.cons_append] at hrec ⊢
    simp only [List.isEmpty_cons, Bool.not_false, Bool.true_and] at hrec ⊢
    rw [parseTxtGo]
    simp [hbl, hb2, nextLineNonBlank, hrec]

theorem addSBGo_swallow :
    ∀ (ws rest : List Char), (∀ c ∈ ws, isJsSpace c = true) →
      (∀ d, rest.head? = some d → isJsSpace d = false) →
      addSBGo true (ws ++ rest) = addSBGo false rest
  | [], rest, _, hrest => by
    cases rest with
    | nil => rfl
    | cons d r =>
      have hd : isJsSpace d = false := hrest d rfl
      rw [List.nil_append]
      rw [addSBGo, addSBGo]
      simp [hd]
  | w :: ws2, rest, hws, hrest => by
    have hw1 : isJsSpace w = true := hws w (by simp)
    have hws2 : ∀ c ∈ ws2, isJsSpace c = true := fun c hc => hws c (by simp [hc])
    rw [List.cons_append, addSBGo]
    simp only [hw1, Bool.and_self, if_true]
    exact addSBGo_swallow ws2 rest hws2 hrest

theorem addSB_punct_space (p : Char) (ws rest : List Char)
    (hp : isTerminalPunct p = true) (hw : ws ≠ [])
    (hws : ∀ c ∈ ws, isJsSpace c = true)
    (hrest : ∀ d, rest.head? = some d → isJsSpace d = false) :
    addSB (p :: (ws ++ rest)) = p :: (sentenceBreakChars ++ addSB rest) := by
  cases ws with
  | nil => exact absurd rfl hw
  | cons w ws2 =>
    have hw1 : isJsSpace w = true := hws w (by simp)
    have hsw := addSBGo_swallow (w :: ws2) rest hws hrest
    rw [List.cons_append] at hsw
    simp only [addSB]
    rw [addSBGo]
    simp [hp, hw1, headIsSpace, hsw]

theorem processSpineItems_mem :
    ∀ (items : List (Option String)) (m : List (String × String))
      (c : List (String × ContentFile)) (s : TextSegment),
      s ∈ processSpineItems items m c →
      ∃ n, s ∈ processEpubNodeWithContext n false false false false
  | [], m, c, s => by
    intro hs
    simp [processSpineItems] at hs
  | none :: rest, m, c, s => by
    intro hs
    rw [processSpineItems] at hs
    exact processSpineItems_mem rest m c s hs
  | some idref :: rest, m, c, s => by
    intro hs
    rw [processSpineItems] at hs
    split at hs
    · exact processSpineItems_mem rest m c s hs
    · split at hs
      · exact processSpineItems_mem rest m c s hs
      · split at hs
        · exact processSpineItems_mem rest m c s hs
        · exact processSpineItems_mem rest m c s hs
        · rw [List.mem_append] at hs
          rcases hs with hs | hs
          · exact ⟨_, hs⟩
          · exact processSpineItems_mem rest m c s hs

theorem boldTag_not_structural (t : String) (hB : isBoldTag t = true) :
    (t == ("empty-line")) = false ∧ (t == ("p")) = false := by
  have ht : t = ("strong") ∨ t = ("b") := by simpa [isBoldTag] using hB
  rcases ht with rfl | rfl
  · exact ⟨by decide, by decide⟩
  · exact ⟨by decide, by decide⟩

/-!
The claims.
-/

/-- Claim C1: in both markup walkers, a segment's bold flag is set whenever
its text node descends from a bold-class (strong/b) or heading-class
element, and bold/italic/underline state inherited at an element stays set
on every non-break segment of that element's subtree (break segments carry
no style fields at all). -/
theorem markup_style_flags_monotone :
    (∀ (n : XNode) (h b i u : Bool) (s : TextSegment),
      (s ∈ processFb2NodeWithContext n h b i u ∨
        s ∈ processEpubNodeWithContext n h b i u) →
      (((h || b) = true → s.isParagraphBreak = some true ∨ s.bold = some true) ∧
       (i = true → s.isParagraphBreak = some true ∨ s.italic = some true) ∧
       (u = true → s.isParagraphBreak = some true ∨ s.underline = some true) ∧
       (h = true → s.isParagraphBreak = some true ∨
         (s.isHeading = some true ∧ s.bold = some true)))) ∧
    (∀ (tag : String) (ch : XNodes) (h b i u : Bool) (s : TextSegment),
      ((isBoldTag (toLowerStr tag) || isFb2HeadingTag (toLowerStr tag)) = true →
        s ∈ processFb2NodeWithContext (XNode.elem tag ch) h b i u →
        s.isParagraphBreak = some true ∨ s.bold = some true) ∧
      ((isBoldTag (toLowerStr tag) || isEpubHeadingTag (toLowerStr tag)) = true →
        s ∈ processEpubNodeWithContext (XNode.elem tag ch) h b i u →
        s.isParagraphBreak = some true ∨ s.bold = some true)) := by
  constructor
  · intro n h b i u s hs
    rcases hs with hs | hs
    · exact fb2NodeMono n h b i u s hs
    · exact epubNodeMono n h b i u s hs
  · intro tag ch h b i u s
    constructor
    · intro hcond hs
      cases hH : isFb2HeadingTag (toLowerStr tag) with
      | true =>
        simp [processFb2NodeWithContext, hH] at hs
        rcases hs with rfl | hs | rfl | rfl
        · exact Or.inl rfl
        · exact (fb2ChildrenMono ch true true i u s hs).1 rfl
        · exact Or.inl rfl
        · exact Or.inl rfl
      | false =>
        have hB : isBoldTag (toLowerStr tag) = true := by
          rcases (Bool.or_eq_true _ _).mp hcond with h1 | h1
          · exact h1
          · rw [hH] at h1
            exact absurd h1 (by simp)
        have hne := boldTag_not_structural (toLowerStr tag) hB
        simp only [processFb2NodeWithContext, hH, hne.1, hne.2, hB,
          Bool.or_true, Bool.false_eq_true, if_false] at hs
        exact (fb2ChildrenMono ch h true _ _ s hs).1 (by simp)
    · intro hcond hs
      cases hH : isEpubHeadingTag (toLowerStr tag) with
      | true =>
        simp [processEpubNodeWithContext, hH] at hs
        rcases hs with rfl | hs | rfl | rfl
        · exact Or.inl rfl
        · exact (epubChildrenMono ch true true i u s hs).1 rfl
        · exact Or.inl rfl
        · exact Or.inl rfl
      | false =>
        have hB : isBoldTag (toLowerStr tag) = true := by
          rcases (Bool.or_eq_true _ _).mp hcond with h1 | h1
          · exact h1
          · rw [hH] at h1
            exact absurd h1 (by simp)
        have hne := boldTag_not_structural (toLowerStr tag) hB
        simp only [processEpubNodeWithContext, hH, hne.2, hB,
          Bool.or_true, Bool.false_eq_true, if_false] at hs
        exact (epubChildrenMono ch h true _ _ s hs).1 (by simp)

/-- Witness for claim C1 at a concrete heading-context text node. -/
theorem markup_style_flags_monotone_witness :
    (mkTextSeg (['H', 'i']) true false true true).isParagraphBreak = some true ∨
      (mkTextSeg (['H', 'i']) true false true true).bold = some true :=
  ((markup_style_flags_monotone.1 (XNode.text ("Hi")) true false true true
      (mkTextSeg (['H', 'i']) true false true true) (Or.inl (by decide))).1 (by decide))

/-- Claim C2 (amended): a heading-class element emits, in order, one
heading-gap segment, the heading's content segments, a second heading-gap
segment and one paragraph-break segment; among the content segments, every
segment that is not itself a break segment (emitted by a structural tag
nested inside the heading) carries isHeading = true and bold = true. -/
theorem heading_emission_structure_amended :
    ∀ (tag : String) (ch : XNodes) (h b i u : Bool),
      (isFb2HeadingTag (toLowerStr tag) = true →
        processFb2NodeWithContext (XNode.elem tag ch) h b i u =
          headingGapSeg ::
            (processFb2Children ch true true i u ++ [headingGapSeg, paraBreakSeg]) ∧
        ∀ s ∈ processFb2Children ch true true i u,
          s.isParagraphBreak = some true ∨
            (s.isHeading = some true ∧ s.bold = some true)) ∧
      (isEpubHeadingTag (toLowerStr tag) = true →
        processEpubNodeWithContext (XNode.elem tag ch) h b i u =
          headingGapSeg ::
            (processEpubChildren ch true true i u ++ [headingGapSeg, paraBreakSeg]) ∧
        ∀ s ∈ processEpubChildren ch true true i u,
          s.isParagraphBreak = some true ∨
            (s.isHeading = some true ∧ s.bold = some true)) := by
  intro tag ch h b i u
  constructor
  · intro hH
    constructor
    · rw [processFb2NodeWithContext]
      simp [hH]
    · intro s hs
      exact (fb2ChildrenMono ch true true i u s hs).2.2.2 rfl
  · intro hH
    constructor
    · rw [processEpubNodeWithContext]
      simp [hH]
    · intro s hs
      exact (epubChildrenMono ch true true i u s hs).2.2.2 rfl

/-- Witness for claim C2's amended statement at a concrete FB2 title. -/
theorem heading_emission_structure_amended_witness :
    processFb2NodeWithContext (XNode.elem ("title") XNodes.nil) false false false false =
      headingGapSeg ::
        (processFb2Children XNodes.nil true true false false ++
          [headingGapSeg, paraBreakSeg]) :=
  ((heading_emission_structure_amended ("title") XNodes.nil false false false false).1
    (by decide)).1

/-- An FB2 title element containing a paragraph, as DOMParser would produce
for `<title><p>Hi</p></title>`. -/
def titleWithP : XNode :=
  XNode.elem ("title")
    (XNodes.cons (XNode.elem ("p") (XNodes.cons (XNode.text ("Hi")) XNodes.nil))
      XNodes.nil)

/-- Claim C2 counterexample: for a title containing a p element, the content
region between the two heading gaps holds a paragraph-break segment whose
isHeading and bold fields are absent, so not every content segment carries
isHeading = true and bold = true. -/
theorem heading_content_flags_counterexample :
    processFb2NodeWithContext titleWithP false false false false =
      [headingGapSeg, mkTextSeg (['H', 'i']) true true false false,
       paraBreakSeg, headingGapSeg, paraBreakSeg] ∧
    paraBreakSeg.isHeading = none ∧ paraBreakSeg.bold = none :=
  ⟨by decide, rfl, rfl⟩

/-- Claim C3: in parseTxt, a line that is blank after trimming emits exactly
one paragraph-break segment when a following line exists and is non-blank,
and nothing otherwise; consequently a blank-line run contributes at most one
paragraph-break segment, and none when the run reaches the end of the
file. -/
theorem parseTxt_blank_line_emission :
    ∀ (l : List Char) (rest : List (List Char)), (jsTrim l).isEmpty = true →
      (parseTxtGo (l :: rest) =
        (if nextLineNonBlank rest then paraBreakSeg :: parseTxtGo rest
         else parseTxtGo rest)) ∧
      (∀ (blanks rest2 : List (List Char)),
        (∀ x ∈ blanks, (jsTrim x).isEmpty = true) →
        parseTxtGo (blanks ++ rest2) =
          (if !blanks.isEmpty && nextLineNonBlank rest2 then [paraBreakSeg] else []) ++
            parseTxtGo rest2) := by
  intro l rest hl
  constructor
  · rw [parseTxtGo]
    simp only [hl, if_true]
    cases hnb : nextLineNonBlank rest <;> simp [hnb]
  · exact fun blanks rest2 hb => parseTxtGo_blank_run blanks rest2 hb

/-- Witness for claim C3 at a concrete blank line followed by a non-blank
line. -/
theorem parseTxt_blank_line_emission_witness :
    parseTxtGo ([] :: [['a']]) =
      (if nextLineNonBlank [['a']] then paraBreakSeg :: parseTxtGo [['a']]
       else parseTxtGo [['a']]) :=
  (parseTxt_blank_line_emission [] [['a']] (by decide)).1

/-- Claim C4 (amended): an internal blank-line run of any length followed by
a non-blank line produces exactly one paragraph-break segment, a run
reaching the end of the file produces none, and a leading run followed by a
non-blank line also produces exactly one (rather than none, as leading runs
behave like any other run whose lookahead line is non-blank). -/
theorem parseTxt_blank_run_behavior :
    ∀ (a : List Char) (blanks rest : List (List Char)),
      (jsTrim a).isEmpty = false → blanks ≠ [] →
      (∀ x ∈ blanks, (jsTrim x).isEmpty = true) →
      (nextLineNonBlank rest = true →
        parseTxtGo (a :: (blanks ++ rest)) =
          txtLineSeg a :: paraBreakSeg :: parseTxtGo rest) ∧
      (rest = [] → parseTxtGo (a :: blanks) = [txtLineSeg a]) ∧
      (nextLineNonBlank rest = true →
        parseTxtGo (blanks ++ rest) = paraBreakSeg :: parseTxtGo rest) := by
  intro a blanks rest ha hbne hb
  have hrun := parseTxtGo_blank_run blanks rest hb
  have hbe : blanks.isEmpty = false := by
    cases blanks with
    | nil => exact absurd rfl hbne
    | cons x xs => simp
  refine ⟨?_, ?_, ?_⟩
  · intro hnb
    rw [parseTxtGo]
    simp [ha, hrun, hbe, hnb]
  · intro hre
    subst hre
    have hrun2 := parseTxtGo_blank_run blanks [] hb
    simp [nextLineNonBlank, parseTxtGo, hbe] at hrun2
    rw [parseTxtGo]
    simp [ha, hrun2]
  · intro hnb
    rw [hrun]
    simp [hbe, hnb]

/-- Witness for claim C4's amended statement at a concrete non-blank line, a
single blank line and a following non-blank line. -/
theorem parseTxt_blank_run_behavior_witness :
    parseTxtGo ((['a']) :: ([[]] ++ [['b']])) =
      txtLineSeg (['a']) :: paraBreakSeg :: parseTxtGo [['b']] :=
  (parseTxt_blank_run_behavior (['a']) ([[]]) ([['b']]) (by decide) (by decide)
    (by decide)).1 (by decide)

/-- Claim C4 counterexample: the input consisting of one leading blank line
then a non-blank line yields a paragraph-break segment (the claim's
"leading blank lines produce no paragraph-break segment at all" fails: the
run contributes exactly one, not zero). -/
theorem leading_blank_line_counterexample :
    parseTxt ("\nHi") = [paraBreakSeg, txtLineSeg (['H', 'i'])] ∧
    (parseTxt ("\nHi")).countP (fun s => s.isParagraphBreak == some true) = 1 :=
  ⟨by decide, by decide⟩

/-- Claim C5 (amended): addSentenceBreaks replaces the whitespace run that
follows terminal punctuation with the 10-NBSP sentence-break marker; every
non-blank plain-text line is emitted with the marker appended; but walker
text-node segments end in a single appended plain space (the marker is not
appended to them). -/
theorem sentence_break_marker_amended :
    (∀ (p : Char) (ws rest : List Char),
      isTerminalPunct p = true → ws ≠ [] →
      (∀ c ∈ ws, isJsSpace c = true) →
      (∀ d, rest.head? = some d → isJsSpace d = false) →
      addSB (p :: (ws ++ rest)) = p :: (sentenceBreakChars ++ addSB rest)) ∧
    (∀ (l : List Char) (rest : List (List Char)), (jsTrim l).isEmpty = false →
      parseTxtGo (l :: rest) = txtLineSeg l :: parseTxtGo rest) ∧
    (∀ (l : List Char), List.IsSuffix sentenceBreakChars (txtLineSeg l).text.data) ∧
    (∀ (n : XNode) (h b i u : Bool) (s : TextSegment),
      (s ∈ processFb2NodeWithContext n h b i u ∨
        s ∈ processEpubNodeWithContext n h b i u) →
      s.isParagraphBreak = some true ∨ s.text.data.getLast? = some ' ') := by
  refine ⟨addSB_punct_space, ?_, ?_, ?_⟩
  · intro l rest hl
    rw [parseTxtGo]
    simp [hl]
  · intro l
    exact ⟨addSB (jsTrim l), rfl⟩
  · intro n h b i u s hs
    rcases hs with hs | hs
    · exact segForm_last_space s (fb2NodeForm n h b i u s hs)
    · exact segForm_last_space s (epubNodeForm n h b i u s hs)

/-- Witness for claim C5's amended statement at a concrete replacement. -/
theorem sentence_break_marker_amended_witness :
    addSB ('.' :: ([' '] ++ ['a'])) = '.' :: (sentenceBreakChars ++ addSB ['a']) :=
  sentence_break_marker_amended.1 '.' [' '] ['a'] (by decide) (by decide) (by decide)
    (by intro d hd; injection hd with hd2; subst hd2; decide)

/-- Claim C5 counterexample: a walker text segment ends with one plain
space; the 10-NBSP sentence-break marker is not appended to it. -/
theorem walker_trailing_marker_counterexample :
    processFb2NodeWithContext (XNode.text ("Hi")) false false false false =
      [{ text := ("Hi "), bold := some false, italic := some false,
         underline := some false, isHeading := some false }] ∧
    (("Hi ") : String).data.getLast? = some ' ' ∧
    ¬ List.IsSuffix sentenceBreakChars (("Hi ") : String).data := by
  refine ⟨by decide, by decide, ?_⟩
  intro hcontra
  rcases hcontra with ⟨t, ht⟩
  have hlen := congrArg List.length ht
  simp [sentenceBreakChars] at hlen

/-- Claim C6: the concrete plain-text scenario from the specification. -/
theorem parseTxt_concrete_scenario :
    parseTxt ("Hello world. Next line.\n\nSecond line here") =
      [{ text := ("Hello world.") ++ SENTENCE_BREAK ++ ("Next line.") ++ SENTENCE_BREAK },
       { text := PARAGRAPH_BREAK, isParagraphBreak := some true },
       { text := ("Second line here") ++ SENTENCE_BREAK }] := by
  decide

/-- Claim C7: the three missing-piece conditions abort parseEpub with
distinguishable errors and no segments, while spine items whose idref is
absent, unmatched in the manifest, or resolving to an unreadable content
file are skipped without error and without affecting the segments of the
remaining spine items. -/
theorem parseEpub_fatal_vs_skipped :
    ∀ (e : EpubArchive),
      (e.hasContainerXml = false →
        parseEpub e = Except.error ("Invalid EPUB: missing container.xml")) ∧
      (e.hasContainerXml = true → e.rootfileFullPath = none →
        parseEpub e = Except.error ("Invalid EPUB: missing OPF path")) ∧
      (∀ p, e.hasContainerXml = true → e.rootfileFullPath = some p →
        p.data.isEmpty = false → e.hasOpfFile = false →
        parseEpub e = Except.error ("Invalid EPUB: missing OPF file")) ∧
      (∀ rest m c, processSpineItems (none :: rest) m c = processSpineItems rest m c) ∧
      (∀ idref rest m c, manifestGet m idref = none →
        processSpineItems (some idref :: rest) m c = processSpineItems rest m c) ∧
      (∀ idref href rest m c, manifestGet m idref = some href →
        contentAt c href = ContentFile.unreadable →
        processSpineItems (some idref :: rest) m c = processSpineItems rest m c) := by
  intro e
  refine ⟨?_, ?_, ?_, ?_, ?_, ?_⟩
  · intro h1
    rw [parseEpub]
    simp [h1]
  · intro h1 h2
    rw [parseEpub]
    simp [h1, h2]
  · intro p h1 h2 h3 h4
    rw [parseEpub]
    simp [h1, h2, h3, h4]
  · intro rest m c
    rw [processSpineItems]
  · intro idref rest m c hmg
    rw [processSpineItems]
    by_cases he : idref.data.isEmpty = true
    · simp [he]
    · simp [he, hmg]
  · intro idref href rest m c hmg hca
    rw [processSpineItems]
    by_cases he : idref.data.isEmpty = true
    · simp [he]
    · simp [he, hmg, hca]

/-- An archive with nothing in it. -/
def emptyArchive : EpubArchive :=
  { hasContainerXml := false, rootfileFullPath := none, hasOpfFile := false,
    manifestItems := [], spineItemrefs := [], contentFiles := [] }

/-- Witness for claim C7 at the empty archive. -/
theorem parseEpub_fatal_vs_skipped_witness :
    parseEpub emptyArchive = Except.error ("Invalid EPUB: missing container.xml") :=
  (parseEpub_fatal_vs_skipped emptyArchive).1 rfl

/-- Claim C8 (amended): the detector takes the last dot-separated component
of the file name (the whole name when it contains no dot), lower-cases it
and matches it against the three known extensions; parseBook fails with the
unrecognized-format error for any file name whose component matches none of
them. -/
theorem parseBook_unknown_extension_fails :
    ∀ (f : MFile),
      toLowerStr (String.mk ((splitOnDot f.name.data).getLastD [])) ≠ ("txt") →
      toLowerStr (String.mk ((splitOnDot f.name.data).getLastD [])) ≠ ("fb2") →
      toLowerStr (String.mk ((splitOnDot f.name.data).getLastD [])) ≠ ("epub") →
      parseBook f = Except.error (("Unknown file format: ") ++
        toLowerStr (String.mk ((splitOnDot f.name.data).getLastD []))) := by
  intro f h1 h2 h3
  have e1 := beq_eq_false_iff_ne.mpr h1
  have e2 := beq_eq_false_iff_ne.mpr h2
  have e3 := beq_eq_false_iff_ne.mpr h3
  have hf : getFileFormat f.name = Except.error (("Unknown file format: ") ++
      toLowerStr (String.mk ((splitOnDot f.name.data).getLastD []))) := by
    rw [getFileFormat, if_neg (by rw [e1]; simp), if_neg (by rw [e2]; simp),
      if_neg (by rw [e3]; simp)]
  rw [parseBook, hf]

/-- A file whose name has no recognized extension. -/
def pdfFile : MFile :=
  { name := ("book.pdf"), content := (""), xmlDoc := XNode.other,
    archive := emptyArchive }

/-- Witness for claim C8's amended statement at a pdf file name. -/
theorem parseBook_unknown_extension_fails_witness :
    parseBook pdfFile = Except.error (("Unknown file format: ") ++
      toLowerStr (String.mk ((splitOnDot pdfFile.name.data).getLastD []))) :=
  parseBook_unknown_extension_fails pdfFile (by decide) (by decide) (by decide)

/-- A file named exactly "txt", with no extension at all. -/
def txtNameFile : MFile :=
  { name := ("txt"), content := (""), xmlDoc := XNode.other,
    archive := emptyArchive }

/-- Claim C8 counterexample: the file name "txt" has no extension (no dot at
all), yet getFileFormat recognizes it as the txt format and parseBook
succeeds instead of failing with the unrecognized-format error: with no dot,
`split('.').pop()` returns the whole name, not the substring after a dot. -/
theorem extensionless_name_counterexample :
    getFileFormat ("txt") = Except.ok BookFormat.txt ∧
    parseBook txtNameFile = Except.ok ([] : List TextSegment) :=
  ⟨rfl, rfl⟩

mutual
theorem findByTag_none_of_not_contains :
    ∀ (tag : String) (n : XNode), containsTag tag n = false →
      findByTag tag n = none
  | tag, XNode.text value => fun _ => rfl
  | tag, XNode.elem t ch => by
    intro hc
    rw [containsTag] at hc
    rcases Bool.or_eq_false_iff.mp hc with ⟨h1, h2⟩
    rw [findByTag]
    simp only [h1, Bool.false_eq_true, if_false]
    exact findByTagList_none_of_not_contains tag ch h2
  | tag, XNode.other => fun _ => rfl

theorem findByTagList_none_of_not_contains :
    ∀ (tag : String) (ns : XNodes), containsTagList tag ns = false →
      findByTagList tag ns = none
  | tag, XNodes.nil => fun _ => rfl
  | tag, XNodes.cons c tl => by
    intro hc
    rw [containsTagList] at hc
    rcases Bool.or_eq_false_iff.mp hc with ⟨h1, h2⟩
    rw [findByTagList]
    rw [findByTag_none_of_not_contains tag c h1]
    exact findByTagList_none_of_not_contains tag tl h2
end

/-- Claim C9: an FB2 document tree with no body element makes parseFb2
return the empty segment list (no error is raised; parseFb2 is total). -/
theorem parseFb2_no_body_yields_empty :
    ∀ (doc : XNode), containsTag ("body") doc = false → parseFb2 doc = [] := by
  intro doc hc
  rw [parseFb2]
  rw [findByTag_none_of_not_contains ("body") doc hc]

/-- Witness for claim C9 at a bodyless document. -/
theorem parseFb2_no_body_yields_empty_witness :
    parseFb2 (XNode.text ("x")) = [] :=
  parseFb2_no_body_yields_empty (XNode.text ("x")) (by decide)

/-- Claim C10: every segment any of the three parsers ever emits has
non-empty text: break segments are fixed positive-length NBSP runs,
plain-text line segments end in the 10-character sentence-break marker, and
walker text segments end in an appended space. -/
theorem all_segments_nonempty_text :
    (∀ (input : String) (s : TextSegment), s ∈ parseTxt input → s.text ≠ ("")) ∧
    (∀ (n : XNode) (h b i u : Bool) (s : TextSegment),
      s ∈ processFb2NodeWithContext n h b i u → s.text ≠ ("")) ∧
    (∀ (n : XNode) (h b i u : Bool) (s : TextSegment),
      s ∈ processEpubNodeWithContext n h b i u → s.text ≠ ("")) ∧
    (∀ (doc : XNode) (s : TextSegment), s ∈ parseFb2 doc → s.text ≠ ("")) ∧
    (∀ (e : EpubArchive) (segs : List TextSegment) (s : TextSegment),
      parseEpub e = Except.ok segs → s ∈ segs → s.text ≠ ("")) := by
  have hw : ∀ (s : TextSegment),
      (s = paraBreakSeg ∨ (∃ l, s = txtLineSeg l)) → s.text ≠ ("") := by
    intro s hs
    rcases hs with rfl | ⟨l, rfl⟩
    · exact segForm_text_ne paraBreakSeg (Or.inr (Or.inl rfl))
    · exact txtLineSeg_text_ne l
  refine ⟨?_, ?_, ?_, ?_, ?_⟩
  · intro input s hs
    exact hw s (parseTxtGo_mem _ s hs)
  · intro n h b i u s hs
    exact segForm_text_ne s (fb2NodeForm n h b i u s hs)
  · intro n h b i u s hs
    exact segForm_text_ne s (epubNodeForm n h b i u s hs)
  · intro doc s hs
    cases hfind : findByTag ("body") doc with
    | none =>
      rw [parseFb2, hfind] at hs
      simp at hs
    | some body =>
      rw [parseFb2, hfind] at hs
      exact segForm_text_ne s (fb2NodeForm body false false false false s hs)
  · intro e segs s hok hs
    rw [parseEpub] at hok
    split at hok
    · exact absurd hok (by simp)
    · split at hok
      · exact absurd hok (by simp)
      · split at hok
        · exact absurd hok (by simp)
        · split at hok
          · exact absurd hok (by simp)
          · injection hok with hseg
            subst hseg
            obtain ⟨n, hn⟩ := processSpineItems_mem _ _ _ s hs
            exact segForm_text_ne s (epubNodeForm n false false false false s hn)

/-- Witness for claim C10 at a concrete plain-text parse. -/
theorem all_segments_nonempty_text_witness :
    (txtLineSeg (['H', 'i'])).text ≠ ("") :=
  all_segments_nonempty_text.1 ("Hi") (txtLineSeg (['H', 'i'])) (by decide)
